import Mathlib

/-!
Verification of the request-introspection and synthetic-response core of a
diagnostic HTTP echo service written in Go.  Go strings are byte strings; we
model path and header strings as `List Char` (all data relevant to the claims
is ASCII, where bytes and characters coincide) and model raw payload bytes
(the result of base64 decoding) as `List Nat`.  Floating-point weights are
modelled as exact rationals.  The process-wide random generator is modelled
by passing the drawn uniform value (and generated nonce/opaque strings) as
explicit arguments.
-/

/-- Go strings as lists of characters. -/
abbrev GoStr := List Char

/-- Coerce a Lean string literal to a `GoStr`. -/
def gs (s : String) : GoStr := s.data

/-- The set of characters trimmed by Go's `strings.TrimSpace`
(`unicode.IsSpace` over the Latin-1 range, which covers every input the
service manipulates). -/
def goIsSpace (c : Char) : Bool :=
  c = ' ' || c = '\t' || c = '\n' || c = Char.ofNat 11 || c = Char.ofNat 12 ||
  c = '\r' || c = Char.ofNat 0x85 || c = Char.ofNat 0xA0

/-- Go `strings.TrimSpace`: drop leading and trailing whitespace. -/
def goTrimSpace (l : GoStr) : GoStr :=
  ((l.dropWhile goIsSpace).reverse.dropWhile goIsSpace).reverse

/-- Go `strings.Trim(s, cutset)` for a single-character cutset: drop all
leading and trailing occurrences of `c`. -/
def goTrimChar (c : Char) (l : GoStr) : GoStr :=
  ((l.dropWhile (· = c)).reverse.dropWhile (· = c)).reverse

/-- Go `strings.TrimPrefix`: drop `pre` if it is a prefix, else return the
string unchanged. -/
def goTrimPrefixL (l pre : GoStr) : GoStr :=
  if pre.isPrefixOf l then l.drop pre.length else l

/-- Go `strings.Split(s, sep)` for a single-character separator: the chunks
between occurrences of `c`.  Always returns at least one (possibly empty)
chunk, like Go. -/
def splitChar (c : Char) : GoStr → List GoStr
  | [] => [[]]
  | x :: xs =>
    let r := splitChar c xs
    if x = c then [] :: r else (x :: r.headD []) :: r.tail

/-- Go `strings.SplitN(s, sep, 2)` for a single-element separator, generic in
the element type (used both on characters and on raw bytes): split at the
first occurrence only. -/
def splitN2 [DecidableEq α] (sep : α) (l : List α) : List (List α) :=
  if sep ∈ l then [l.takeWhile (· ≠ sep), (l.dropWhile (· ≠ sep)).drop 1] else [l]

/-- Go `strings.Contains(s, sub)`: substring occurrence test. -/
def goContainsSub (s sub : GoStr) : Bool :=
  (List.range (s.length + 1)).any (fun i => sub.isPrefixOf (s.drop i))

/-- Go `strings.LastIndex(s, ":")`-style search for a single character:
index of the last occurrence, if any. -/
def goLastIndex (c : Char) : GoStr → Option Nat
  | [] => none
  | x :: xs =>
    match goLastIndex c xs with
    | some j => some (j + 1)
    | none => if x = c then some 0 else none

/-- Decimal digits of a character list folded to a natural number
(assumes `Char.isDigit` holds of every element). -/
def digitsToNat (l : GoStr) : Nat :=
  l.foldl (fun acc c => acc * 10 + (c.toNat - 48)) 0

/-- Go `strconv.Atoi`: optional sign, one or more decimal digits, nothing
else; values outside the 64-bit signed range are a range error.  `none`
models a non-nil `error` return. -/
def goAtoi (s : GoStr) : Option Int :=
  let (neg, digits) :=
    match s with
    | '-' :: rest => (true, rest)
    | '+' :: rest => (false, rest)
    | _ => (false, s)
  if digits = [] then none
  else if digits.all Char.isDigit then
    let n : Nat := digitsToNat digits
    let v : Int := if neg then -(n : Int) else (n : Int)
    if -(2 ^ 63) ≤ v ∧ v ≤ 2 ^ 63 - 1 then some v else none
  else none

/-- Go `strconv.ParseFloat` restricted to the decimal forms that can appear
in a status-weight specification — `[+-] digits [. digits] [eE [+-] digits]`,
with at least one digit in the mantissa — evaluated exactly as a rational
instead of rounding to a 64-bit float.  (`Inf`/`NaN`/hex-float spellings are
out of scope for this service and parse as errors here.) -/
def goParseFloat (s : GoStr) : Option ℚ :=
  let (neg, l1) :=
    match s with
    | '-' :: rest => (true, rest)
    | '+' :: rest => (false, rest)
    | _ => (false, s)
  let intd := l1.takeWhile Char.isDigit
  let r1 := l1.dropWhile Char.isDigit
  let fracPart : Option (GoStr × GoStr) :=
    match r1 with
    | '.' :: r2 => some (r2.takeWhile Char.isDigit, r2.dropWhile Char.isDigit)
    | _ => some ([], r1)
  match fracPart with
  | none => none
  | some (fracd, r3) =>
    if intd = [] ∧ fracd = [] then none
    else
      let expPart : Option Int :=
        match r3 with
        | [] => some 0
        | 'e' :: r4 =>
          match r4 with
          | '-' :: r5 => if r5 ≠ [] ∧ r5.all Char.isDigit then some (-(digitsToNat r5 : Int)) else none
          | '+' :: r5 => if r5 ≠ [] ∧ r5.all Char.isDigit then some (digitsToNat r5 : Int) else none
          | _ => if r4 ≠ [] ∧ r4.all Char.isDigit then some (digitsToNat r4 : Int) else none
        | 'E' :: r4 =>
          match r4 with
          | '-' :: r5 => if r5 ≠ [] ∧ r5.all Char.isDigit then some (-(digitsToNat r5 : Int)) else none
          | '+' :: r5 => if r5 ≠ [] ∧ r5.all Char.isDigit then some (digitsToNat r5 : Int) else none
          | _ => if r4 ≠ [] ∧ r4.all Char.isDigit then some (digitsToNat r4 : Int) else none
        | _ => none
      match expPart with
      | none => none
      | some e =>
        let mant : Nat := digitsToNat (intd ++ fracd)
        let scale : Int := e - fracd.length
        let mag : ℚ :=
          if 0 ≤ scale then (mant : ℚ) * (10 : ℚ) ^ scale.toNat
          else (mant : ℚ) / (10 : ℚ) ^ (-scale).toNat
        some (if neg then -mag else mag)

/-- A status code together with its selection weight
(`statusWeight` in `status.go`). -/
structure StatusWeight where
  code : Int
  weight : ℚ
deriving DecidableEq

/-- One segment of a weighted status specification: Go splits the trimmed
segment on every colon, requires exactly two parts, and requires the code to
parse as an integer and the weight as a float; any failure skips the
segment. -/
def parseSegment (part : GoStr) : Option StatusWeight :=
  match splitChar ':' (goTrimSpace part) with
  | [c, w] =>
    match goAtoi (goTrimSpace c), goParseFloat (goTrimSpace w) with
    | some code, some weight => some ⟨code, weight⟩
    | _, _ => none
  | _ => none

/-- `parseStatusCodes` from `status.go`: trims the `/status/` prefix; an empty
remainder yields Go's `nil, nil` (modelled as `some []`); a colon-free
remainder must parse as a single integer with weight 1; otherwise the
remainder is split on commas and malformed segments are silently skipped.
`none` models a non-nil `error` return. -/
def parseStatusCodes (path : GoStr) : Option (List StatusWeight) :=
  let spec := goTrimPrefixL path (gs ("/status/"))
  if spec = [] then some []
  else if goContainsSub spec (gs (":")) = false then
    match goAtoi spec with
    | none => none
    | some code => some [⟨code, 1⟩]
  else
    some ((splitChar ',' spec).filterMap parseSegment)

/-- Total weight of a specification (`totalWeight` in `selectStatusCode`). -/
def sumWeights (ws : List StatusWeight) : ℚ := (ws.map (·.weight)).sum

/-- The cumulative-weight walk inside `selectStatusCode`: return the first
entry whose cumulative weight is `≥ r`, falling back to `fb` (the last entry)
when the loop runs off the end. -/
def selectLoop (r : ℚ) : ℚ → List StatusWeight → StatusWeight → StatusWeight
  | _, [], fb => fb
  | cum, w :: rest, fb =>
    if r ≤ cum + w.weight then w else selectLoop r (cum + w.weight) rest fb

/-- The entry chosen by `selectStatusCode` for uniform draw `u ∈ [0,1)`
(Go's `rand.Float64()` value): a ghost companion of `selectStatusCode` that
keeps the whole chosen entry rather than just its code. -/
def selectEntry (ws : List StatusWeight) (u : ℚ) : StatusWeight :=
  match ws with
  | [] => ⟨200, 1⟩
  | [w] => w
  | w :: rest =>
    let total := sumWeights (w :: rest)
    selectLoop (u * total) 0 (w :: rest) (rest.getLastD w)

/-- `selectStatusCode` from `status.go`, with the `rand.Float64()` draw `u`
passed explicitly: empty specs give `http.StatusOK`, singletons give their
code directly (weight ignored), and multi-entry specs run the weighted
walk on `r := u * totalWeight`. -/
def selectStatusCode (ws : List StatusWeight) (u : ℚ) : Int :=
  match ws with
  | [] => 200
  | _ => (selectEntry ws u).code

/-- The body of a synthesized HTTP response, kept structured (the Go code
serializes these shapes with `encoding/json`). -/
inductive RespBody where
  | empty
  | errorMsg (msg : GoStr)
  | basicSuccess (user : List Nat)
  | digestSuccess (user : GoStr)
deriving DecidableEq

/-- An HTTP response as produced by the handlers: status code, the headers
the handlers may set, and the structured body. -/
structure Response where
  status : Int
  contentType : Option GoStr := none
  wwwAuthenticate : Option GoStr := none
  body : RespBody := .empty
deriving DecidableEq

/-- `writeJSONResponse` from the handlers package: sets
`Content-Type: application/json` and the status, then encodes the body. -/
def writeJSONResponse (status : Int) (b : RespBody) : Response :=
  { status := status, contentType := some (gs ("application/json")), body := b }

/-- `writeJSONError`: a JSON response whose body is `{"error": msg}`. -/
def writeJSONError (status : Int) (msg : GoStr) : Response :=
  writeJSONResponse status (.errorMsg msg)

/-- `StatusHandler` from `status.go`, with the uniform draw `u` passed
explicitly: parse the specification, reject parse errors and empty results,
select a code, reject codes outside `[100, 599]`, and otherwise respond with
just that status (no content-type, no body). -/
def StatusHandler (path : GoStr) (u : ℚ) : Response :=
  match parseStatusCodes path with
  | none => writeJSONError 400 (gs ("Invalid status code specification"))
  | some ws =>
    if ws = [] then writeJSONError 400 (gs ("Invalid status code specification"))
    else
      let code := selectStatusCode ws u
      if code < 100 ∨ 599 < code then
        writeJSONError 400 (gs ("Status code must be between 100 and 599"))
      else { status := code }

/-- Request headers: an ordered multimap from header name to value, with
names assumed to be in Go's canonical MIME form (the form every caller in
this repository uses). -/
abbrev Headers := List (GoStr × GoStr)

/-- Go `http.Header.Get`: the first value stored under the key, or the empty
string when the key is absent. -/
def headerGet (hs : Headers) (k : GoStr) : GoStr :=
  match hs.find? (fun p => p.1 = k) with
  | some p => p.2
  | none => []

/-- `getOriginIP` from the handlers package, as a function of the request's
headers and its transport peer address (`r.RemoteAddr`): `X-Forwarded-For`
first (first comma token, trimmed), then `X-Real-IP` verbatim, then the peer
address with everything from its last colon onward removed. -/
def getOriginIP (headers : Headers) (remoteAddr : GoStr) : GoStr :=
  let xff := headerGet headers (gs ("X-Forwarded-For"))
  if xff ≠ [] then
    goTrimSpace ((splitChar ',' xff).headD [])
  else
    let xri := headerGet headers (gs ("X-Real-IP"))
    if xri ≠ [] then xri
    else
      match goLastIndex ':' remoteAddr with
      | some idx => remoteAddr.take idx
      | none => remoteAddr

/-- The origin-resolution contract as the specification words it, written
independently of `getOriginIP`: take the first comma-separated token of
`X-Forwarded-For` (characters before the first comma) trimmed; else
`X-Real-IP` verbatim; else split the peer address on its last colon (scan
the reversed address up to the first colon) and keep the host portion. -/
def originResolveSpec (headers : Headers) (peer : GoStr) : GoStr :=
  let xff := headerGet headers (gs ("X-Forwarded-For"))
  if xff ≠ [] then
    goTrimSpace (xff.takeWhile (· ≠ ','))
  else
    let xri := headerGet headers (gs ("X-Real-IP"))
    if xri ≠ [] then xri
    else if ':' ∈ peer then ((peer.reverse.dropWhile (· ≠ ':')).drop 1).reverse
    else peer

/-- Value of one character in the standard base64 alphabet. -/
def b64Val (c : Char) : Option Nat :=
  if 'A' ≤ c ∧ c ≤ 'Z' then some (c.toNat - 65)
  else if 'a' ≤ c ∧ c ≤ 'z' then some (c.toNat - 97 + 26)
  else if '0' ≤ c ∧ c ≤ '9' then some (c.toNat - 48 + 52)
  else if c = '+' then some 62
  else if c = '/' then some 63
  else none

/-- Decode base64 four-character quanta into bytes, Go `StdEncoding` style:
`=` padding is allowed only in the final quantum (one byte for `xx==`, two
bytes for `xxx=`), and any other non-alphabet character is an error. -/
def b64Quanta : GoStr → Option (List Nat)
  | [] => some []
  | c1 :: c2 :: c3 :: c4 :: rest =>
    match b64Val c1, b64Val c2 with
    | some v1, some v2 =>
      if c3 = '=' then
        if c4 = '=' ∧ rest = [] then some [(v1 <<< 2) ||| (v2 >>> 4)] else none
      else
        match b64Val c3 with
        | none => none
        | some v3 =>
          if c4 = '=' then
            if rest = [] then
              some [(v1 <<< 2) ||| (v2 >>> 4), ((v2 &&& 15) <<< 4) ||| (v3 >>> 2)]
            else none
          else
            match b64Val c4 with
            | none => none
            | some v4 =>
              match b64Quanta rest with
              | none => none
              | some bs =>
                some (((v1 <<< 2) ||| (v2 >>> 4)) ::
                      (((v2 &&& 15) <<< 4) ||| (v3 >>> 2)) ::
                      (((v3 &&& 3) <<< 6) ||| v4) :: bs)
    | _, _ => none
  | _ => none

/-- Go `base64.StdEncoding.DecodeString`: carriage returns and newlines are
ignored, then the input must be whole padded quanta.  `none` models a
`CorruptInputError`. -/
def base64Decode (s : GoStr) : Option (List Nat) :=
  b64Quanta (s.filter (fun c => c ≠ '\r' ∧ c ≠ '\n'))

/-- UTF-8 encoding of one character (Go strings store text as UTF-8 bytes). -/
def utf8Char (c : Char) : List Nat :=
  let n := c.toNat
  if n < 0x80 then [n]
  else if n < 0x800 then
    [0xC0 ||| (n >>> 6), 0x80 ||| (n &&& 0x3F)]
  else if n < 0x10000 then
    [0xE0 ||| (n >>> 12), 0x80 ||| ((n >>> 6) &&& 0x3F), 0x80 ||| (n &&& 0x3F)]
  else
    [0xF0 ||| (n >>> 18), 0x80 ||| ((n >>> 12) &&& 0x3F),
     0x80 ||| ((n >>> 6) &&& 0x3F), 0x80 ||| (n &&& 0x3F)]

/-- The bytes of a Go string (UTF-8).  Comparing a decoded credential byte
string against a path-derived string in Go is byte equality; here it is
equality with this encoding. -/
def utf8Bytes (s : GoStr) : List Nat := (s.map utf8Char).flatten

/-- The fixed Basic challenge written on every Basic failure path. -/
def basicChallengeHdr : GoStr := gs ("Basic realm=\"Restricted\"")

/-- A 401 Basic-auth failure response: JSON error body plus the
`WWW-Authenticate: Basic realm="Restricted"` header. -/
def basicChallenge (msg : GoStr) : Response :=
  { writeJSONError 401 msg with wwwAuthenticate := some basicChallengeHdr }

/-- The credential-checking tail of `BasicAuthHandler`, once the expected
user and password have been read off the path: a `Basic `-prefixed header
must base64-decode and split on the first colon into a user and password
that both equal the expected values; every failure answers 401 with the
Basic challenge. -/
def basicAuthCheck (expectedUser expectedPasswd auth : GoStr) : Response :=
  if auth = [] then basicChallenge (gs ("Authorization required"))
  else if !(gs ("Basic ")).isPrefixOf auth then
    basicChallenge (gs ("Basic authentication required"))
  else
    match base64Decode (auth.drop 6) with
    | none => basicChallenge (gs ("Invalid authorization format"))
    | some payload =>
      match splitN2 58 payload with
      | [user, passwd] =>
        if user ≠ utf8Bytes expectedUser ∨ passwd ≠ utf8Bytes expectedPasswd then
          basicChallenge (gs ("Invalid username or password"))
        else writeJSONResponse 200 (.basicSuccess user)
      | _ => basicChallenge (gs ("Invalid credentials format"))

/-- `BasicAuthHandler`: expected credentials are the first two path segments
after `/basic-auth/`; fewer than two segments is a 400 routing error; the
remaining validation is `basicAuthCheck`. -/
def BasicAuthHandler (path auth : GoStr) : Response :=
  match splitChar '/' (goTrimPrefixL path (gs ("/basic-auth/"))) with
  | expectedUser :: expectedPasswd :: _ => basicAuthCheck expectedUser expectedPasswd auth
  | _ =>
    writeJSONError 400 (gs ("Invalid path format. Use /basic-auth/\x7buser\x7d/\x7bpasswd\x7d"))

/-- `parseDigestAuth`: split the header value on commas; each part is
trimmed, split at its first `=`, and contributes a directive whose value has
surrounding whitespace and double quotes removed; parts with no `=` are
skipped. -/
def parseDigestAuth (auth : GoStr) : List (GoStr × GoStr) :=
  (splitChar ',' auth).filterMap fun part =>
    match splitN2 '=' (goTrimSpace part) with
    | [k, v] => some (goTrimSpace k, goTrimChar '"' (goTrimSpace v))
    | _ => none

/-- Lookup in a Go map built by inserting the directives in order: the last
binding for a key wins. -/
def mapGet (m : List (GoStr × GoStr)) (k : GoStr) : Option GoStr :=
  m.foldl (fun acc kv => if kv.1 = k then some kv.2 else acc) none

/-- The Digest challenge header
`Digest realm="Restricted", qop="...", nonce="...", opaque="..."` built by
`fmt.Sprintf` on every Digest failure path, with the freshly generated nonce
and opaque values passed explicitly. -/
def digestChallengeHdr (qop nonceV opaqueV : GoStr) : GoStr :=
  gs ("Digest realm=\"Restricted\", qop=\"") ++ qop ++ gs ("\", nonce=\"") ++
  nonceV ++ gs ("\", opaque=\"") ++ opaqueV ++ gs ("\"")

/-- A 401 Digest-auth failure response: JSON error body plus a fresh Digest
challenge header. -/
def digestChallenge (qop nonceV opaqueV msg : GoStr) : Response :=
  { writeJSONError 401 msg with
    wwwAuthenticate := some (digestChallengeHdr qop nonceV opaqueV) }

/-- The validation tail of `DigestAuthHandler`, once qop, expected user and
(unused) password have been read off the path: a `Digest `-prefixed header
authenticates exactly when its parsed `username` directive equals the
expected user; every failure answers 401 with a fresh Digest challenge. -/
def digestAuthCheck (qop expectedUser auth nonceV opaqueV : GoStr) : Response :=
  if auth = [] then
    digestChallenge qop nonceV opaqueV (gs ("Authorization required"))
  else if !(gs ("Digest ")).isPrefixOf auth then
    digestChallenge qop nonceV opaqueV (gs ("Digest authentication required"))
  else
    match mapGet (parseDigestAuth (auth.drop 7)) (gs ("username")) with
    | some username =>
      if username ≠ expectedUser then
        digestChallenge qop nonceV opaqueV (gs ("Invalid username"))
      else writeJSONResponse 200 (.digestSuccess username)
    | none => digestChallenge qop nonceV opaqueV (gs ("Invalid username"))

/-- `DigestAuthHandler`, with the randomly generated nonce and opaque values
passed explicitly: the path supplies `{qop}/{user}/{passwd}` (fewer than
three segments is a 400 routing error; the password segment is parsed but
never used); the remaining validation is `digestAuthCheck`. -/
def DigestAuthHandler (path auth nonceV opaqueV : GoStr) : Response :=
  match splitChar '/' (goTrimPrefixL path (gs ("/digest-auth/"))) with
  | qop :: expectedUser :: _ :: _ => digestAuthCheck qop expectedUser auth nonceV opaqueV
  | _ =>
    writeJSONError 400
      (gs ("Invalid path format. Use /digest-auth/\x7bqop\x7d/\x7buser\x7d/\x7bpasswd\x7d"))

/-- A parsed JSON value as produced by Go's `json.Unmarshal` into `any`
(numbers kept exact as rationals instead of rounding to `float64`). -/
inductive Jval where
  | null
  | bool (b : Bool)
  | num (q : ℚ)
  | str (s : GoStr)
  | arr (xs : List Jval)
  | obj (fields : List (GoStr × Jval))

/-- JSON insignificant whitespace. -/
def jsonWS (c : Char) : Bool := c = ' ' || c = '\t' || c = '\n' || c = '\r'

/-- Drop leading JSON whitespace. -/
def skipWS (l : GoStr) : GoStr := l.dropWhile jsonWS

/-- Value of a hexadecimal digit. -/
def hexVal (c : Char) : Option Nat :=
  if '0' ≤ c ∧ c ≤ '9' then some (c.toNat - 48)
  else if 'a' ≤ c ∧ c ≤ 'f' then some (c.toNat - 97 + 10)
  else if 'A' ≤ c ∧ c ≤ 'F' then some (c.toNat - 65 + 10)
  else none

/-- Parse the remainder of a JSON string literal (the opening quote already
consumed), with the standard escapes; `\uXXXX` maps the code unit directly to
a character. -/
def parseJStr (l : GoStr) (acc : GoStr) : Option (GoStr × GoStr) :=
  match l with
  | [] => none
  | c :: rest =>
    if c = '"' then some (acc.reverse, rest)
    else if c = '\\' then
      match rest with
      | [] => none
      | e :: r2 =>
        if e = '"' then parseJStr r2 ('"' :: acc)
        else if e = '\\' then parseJStr r2 ('\\' :: acc)
        else if e = '/' then parseJStr r2 ('/' :: acc)
        else if e = 'b' then parseJStr r2 (Char.ofNat 8 :: acc)
        else if e = 'f' then parseJStr r2 (Char.ofNat 12 :: acc)
        else if e = 'n' then parseJStr r2 ('\n' :: acc)
        else if e = 'r' then parseJStr r2 ('\r' :: acc)
        else if e = 't' then parseJStr r2 ('\t' :: acc)
        else if e = 'u' then
          match r2 with
          | h1 :: h2 :: h3 :: h4 :: r3 =>
            match hexVal h1, hexVal h2, hexVal h3, hexVal h4 with
            | some a, some b, some c2, some d =>
              parseJStr r3 (Char.ofNat (((a * 16 + b) * 16 + c2) * 16 + d) :: acc)
            | _, _, _, _ => none
          | _ => none
        else none
    else parseJStr rest (c :: acc)

/-- Parse a JSON number (leading-zero rule included), exactly as a rational. -/
def parseJNum (l : GoStr) : Option (Jval × GoStr) :=
  let (neg, l1) := match l with | '-' :: r => (true, r) | _ => (false, l)
  let intd := l1.takeWhile Char.isDigit
  let r1 := l1.dropWhile Char.isDigit
  if intd = [] then none
  else if intd.length > 1 ∧ intd.headD '0' = '0' then none
  else
    let fracStep : Option (GoStr × GoStr) :=
      match r1 with
      | '.' :: r2 =>
        let fr := r2.takeWhile Char.isDigit
        if fr = [] then none else some (fr, r2.dropWhile Char.isDigit)
      | _ => some ([], r1)
    match fracStep with
    | none => none
    | some (fracd, r3) =>
      let expStep : Option (Int × GoStr) :=
        match r3 with
        | 'e' :: r4 | 'E' :: r4 =>
          let (eneg, r5) := match r4 with
            | '-' :: r6 => (true, r6)
            | '+' :: r6 => (false, r6)
            | _ => (false, r4)
          let ed := r5.takeWhile Char.isDigit
          if ed = [] then none
          else some (if eneg then -(digitsToNat ed : Int) else (digitsToNat ed : Int),
                     r5.dropWhile Char.isDigit)
        | _ => some (0, r3)
      match expStep with
      | none => none
      | some (e, r6) =>
        let mant : Nat := digitsToNat (intd ++ fracd)
        let scale : Int := e - fracd.length
        let mag : ℚ :=
          if 0 ≤ scale then (mant : ℚ) * (10 : ℚ) ^ scale.toNat
          else (mant : ℚ) / (10 : ℚ) ^ (-scale).toNat
        some (.num (if neg then -mag else mag), r6)

mutual

/-- Fuel-indexed recursive-descent parser for one JSON value, returning the
value and the unconsumed remainder. -/
def parseJVal : Nat → GoStr → Option (Jval × GoStr)
  | 0, _ => none
  | Nat.succ fuel, input =>
    match skipWS input with
    | [] => none
    | c :: rest =>
      if c = '"' then (parseJStr rest []).map (fun p => (Jval.str p.1, p.2))
      else if c = Char.ofNat 123 then
        match skipWS rest with
        | c2 :: r2 =>
          if c2 = Char.ofNat 125 then some (Jval.obj [], r2)
          else parseJMembers fuel rest []
        | [] => none
      else if c = '[' then
        match skipWS rest with
        | c2 :: r2 =>
          if c2 = ']' then some (Jval.arr [], r2)
          else parseJElems fuel rest []
        | [] => none
      else if c = 'n' then
        match rest with
        | 'u' :: 'l' :: 'l' :: r => some (Jval.null, r)
        | _ => none
      else if c = 't' then
        match rest with
        | 'r' :: 'u' :: 'e' :: r => some (Jval.bool true, r)
        | _ => none
      else if c = 'f' then
        match rest with
        | 'a' :: 'l' :: 's' :: 'e' :: r => some (Jval.bool false, r)
        | _ => none
      else parseJNum (c :: rest)

/-- Parse the elements of a non-empty JSON array (after `[`). -/
def parseJElems : Nat → GoStr → List Jval → Option (Jval × GoStr)
  | 0, _, _ => none
  | Nat.succ fuel, input, acc =>
    match parseJVal fuel input with
    | none => none
    | some (v, rest) =>
      match skipWS rest with
      | ',' :: r2 => parseJElems fuel r2 (v :: acc)
      | ']' :: r2 => some (Jval.arr (v :: acc).reverse, r2)
      | _ => none

/-- Parse the members of a non-empty JSON object (after the opening brace). -/
def parseJMembers : Nat → GoStr → List (GoStr × Jval) → Option (Jval × GoStr)
  | 0, _, _ => none
  | Nat.succ fuel, input, acc =>
    match skipWS input with
    | '"' :: rest =>
      match parseJStr rest [] with
      | none => none
      | some (k, r2) =>
        match skipWS r2 with
        | ':' :: r3 =>
          match parseJVal fuel r3 with
          | none => none
          | some (v, r4) =>
            match skipWS r4 with
            | ',' :: r5 => parseJMembers fuel r5 ((k, v) :: acc)
            | c :: r5 =>
              if c = Char.ofNat 125 then some (Jval.obj ((k, v) :: acc).reverse, r5)
              else none
            | [] => none
        | _ => none
    | _ => none

end

/-- Go `json.Unmarshal` into `any`: a single JSON value followed only by
whitespace; anything else is an error (`none`). -/
def parseJson (body : GoStr) : Option Jval :=
  match parseJVal (2 * body.length + 4) body with
  | some (v, rest) => if skipWS rest = [] then some v else none
  | none => none

/-- The canonical request descriptor (`RequestInfo` in the handlers
package). -/
structure RequestInfo where
  method : GoStr
  url : GoStr
  args : List (GoStr × List GoStr)
  headers : Headers
  origin : GoStr
  body : GoStr
  json : Option Jval

/-- An inbound HTTP request as the handlers see it.  `bodyRead` is the
outcome of `io.ReadAll(r.Body)`: `some` bytes on success, `none` when the
read fails with an I/O error. -/
structure GoRequest where
  method : GoStr
  urlFull : GoStr
  query : List (GoStr × List GoStr)
  headers : Headers
  remoteAddr : GoStr
  bodyRead : Option GoStr

/-- `extractRequestInfo` with the body stream's fate made explicit: the
second component is true exactly when `r.Body.Close()` has run by the time
the function returns.  Mirroring the source's control flow, the failed-read
branch returns before `defer r.Body.Close()` is registered, so the stream is
NOT closed there; on the success path the deferred close runs. -/
def extractRequestInfo (r : GoRequest) : Option RequestInfo × Bool :=
  match r.bodyRead with
  | none => (none, false)
  | some body =>
    (some
      { method := r.method
        url := r.urlFull
        args := r.query
        headers := r.headers
        origin := getOriginIP r.headers r.remoteAddr
        body := body
        json :=
          if body ≠ [] ∧
             goContainsSub (headerGet r.headers (gs ("Content-Type")))
               (gs ("application/json")) = true then
            parseJson body
          else none },
     true)

/-- A concrete request whose body read fails, exercising the failed-read
path of `extractRequestInfo`. -/
def failingBodyRequest : GoRequest :=
  { method := gs ("POST")
    urlFull := gs ("/post")
    query := []
    headers := [(gs ("Content-Type"), gs ("application/json"))]
    remoteAddr := gs ("1.2.3.4:5678")
    bodyRead := none }

/-- A concrete JSON POST request used to instantiate the round-trip
property: body `{"key":"value"}` with a JSON content type. -/
def jsonPostRequest : GoRequest :=
  { method := gs ("POST")
    urlFull := gs ("/post")
    query := []
    headers := [(gs ("Content-Type"), gs ("application/json"))]
    remoteAddr := gs ("1.2.3.4:5678")
    bodyRead := some (gs ("\x7b\"key\":\"value\"\x7d")) }

/-- The validity condition the specification states for a Basic-auth
request: the header carries the `Basic ` scheme, its remainder
base64-decodes, and the decoded payload splits at its first colon into
exactly the expected user and password (compared as Go byte strings). -/
def basicOkSpec (eu ep auth : GoStr) : Prop :=
  (gs ("Basic ")).isPrefixOf auth = true ∧
  ∃ payload, base64Decode (auth.drop 6) = some payload ∧
    splitN2 58 payload = [utf8Bytes eu, utf8Bytes ep]

/-- The validity condition the specification states for a Digest-auth
request: the header carries the `Digest ` scheme and its parsed `username`
directive equals the path's expected user; nothing else is checked. -/
def digestOkSpec (eu auth : GoStr) : Prop :=
  (gs ("Digest ")).isPrefixOf auth = true ∧
  mapGet (parseDigestAuth (auth.drop 7)) (gs ("username")) = some eu

/-- The invalid-specification condition of the claim for `StatusHandler`:
an empty spec, a colon-free spec that fails integer parsing, a weighted spec
whose segments are all skipped, or a successfully parsed spec whose selected
code falls outside `[100, 599]`. -/
def statusSpecInvalid (path : GoStr) (u : ℚ) : Prop :=
  let spec := goTrimPrefixL path (gs ("/status/"))
  spec = []
  ∨ (goContainsSub spec (gs (":")) = false ∧ goAtoi spec = none)
  ∨ (goContainsSub spec (gs (":")) = true ∧
      (splitChar ',' spec).filterMap parseSegment = [])
  ∨ (∃ ws, parseStatusCodes path = some ws ∧ ws ≠ [] ∧
      ¬(100 ≤ selectStatusCode ws u ∧ selectStatusCode ws u ≤ 599))


theorem splitChar_ne_nil (c : Char) (l : GoStr) : splitChar c l ≠ [] := by
  cases l with
  | nil => simp [splitChar]
  | cons x xs => simp only [splitChar]; split <;> simp

theorem splitChar_headD (c : Char) (l : GoStr) :
    (splitChar c l).headD [] = l.takeWhile (· ≠ c) := by
  induction l with
  | nil => simp [splitChar]
  | cons x xs ih =>
    by_cases hx : x = c
    · subst hx; simp [splitChar, List.takeWhile_cons]
    · simp [splitChar, List.takeWhile_cons, hx]
      simpa using ih

theorem splitChar_no_sep {c : Char} : ∀ {l : GoStr}, c ∉ l → splitChar c l = [l] := by
  intro l
  induction l with
  | nil => intro _; rfl
  | cons x xs ih =>
    intro h
    have hx : x ≠ c := fun he => h (he ▸ List.mem_cons_self x xs)
    have hxs : c ∉ xs := fun hm => h (List.mem_cons_of_mem x hm)
    simp [splitChar, ih hxs, hx]

theorem splitChar_append {c : Char} (b : GoStr) :
    ∀ {a : GoStr}, c ∉ a → splitChar c (a ++ c :: b) = a :: splitChar c b := by
  intro a
  induction a with
  | nil => intro _; simp [splitChar]
  | cons x xs ih =>
    intro h
    have hx : x ≠ c := fun he => h (he ▸ List.mem_cons_self x xs)
    have hxs : c ∉ xs := fun hm => h (List.mem_cons_of_mem x hm)
    simp [splitChar, ih hxs, hx]

theorem goTrimPrefixL_append (p x : GoStr) : goTrimPrefixL (p ++ x) p = x := by
  have hp : p.isPrefixOf (p ++ x) = true := by
    rw [List.isPrefixOf_iff_prefix]; exact List.prefix_append p x
  simp [goTrimPrefixL, hp]

theorem goLastIndex_eq_none {c : Char} : ∀ {l : GoStr}, goLastIndex c l = none ↔ c ∉ l := by
  intro l
  induction l with
  | nil => simp [goLastIndex]
  | cons x xs ih =>
    simp only [goLastIndex]
    rcases h : goLastIndex c xs with _ | j
    · rw [h] at ih
      by_cases hx : x = c
      · simp [hx]
      · simp [if_neg hx, Ne.symm hx, ih.mp rfl]
    · have hcm : c ∈ xs := by
        by_contra hm
        rw [ih.mpr hm] at h; exact Option.noConfusion h
      simp [hcm]

theorem dropWhile_append_of_mem {c : Char} (b : GoStr) :
    ∀ {a : GoStr}, c ∈ a →
      (a ++ b).dropWhile (· ≠ c) = a.dropWhile (· ≠ c) ++ b := by
  intro a
  induction a with
  | nil => intro h; exact absurd h (List.not_mem_nil c)
  | cons x xs ih =>
    intro h
    by_cases hx : x = c
    · subst hx; simp [List.dropWhile_cons]
    · have hxs : c ∈ xs := List.mem_of_ne_of_mem (Ne.symm hx) h
      simp [List.dropWhile_cons, hx]
      simpa using ih hxs

theorem dropWhile_head_of_mem {c : Char} :
    ∀ {a : GoStr}, c ∈ a → ∃ t, a.dropWhile (· ≠ c) = c :: t := by
  intro a
  induction a with
  | nil => intro h; exact absurd h (List.not_mem_nil c)
  | cons x xs ih =>
    intro h
    by_cases hx : x = c
    · subst hx; exact ⟨xs, by simp [List.dropWhile_cons]⟩
    · have hxs : c ∈ xs := List.mem_of_ne_of_mem (Ne.symm hx) h
      obtain ⟨t, ht⟩ := ih hxs
      exact ⟨t, by simp [List.dropWhile_cons, hx]; simpa using ht⟩

theorem dropWhile_append_of_all {c : Char} (b : GoStr) :
    ∀ {a : GoStr}, c ∉ a →
      (a ++ b).dropWhile (· ≠ c) = b.dropWhile (· ≠ c) := by
  intro a
  induction a with
  | nil => intro _; simp
  | cons x xs ih =>
    intro h
    have hx : x ≠ c := fun he => h (he ▸ List.mem_cons_self x xs)
    have hxs : c ∉ xs := fun hm => h (List.mem_cons_of_mem x hm)
    simp [List.dropWhile_cons, hx]
    simpa using ih hxs

theorem take_goLastIndex {c : Char} :
    ∀ {l : GoStr} {j : Nat}, goLastIndex c l = some j →
      l.take j = ((l.reverse.dropWhile (· ≠ c)).drop 1).reverse := by
  intro l
  induction l with
  | nil => intro j h; exact Option.noConfusion h
  | cons x xs ih =>
    intro j h
    simp only [goLastIndex] at h
    rcases hx : goLastIndex c xs with _ | j'
    · rw [hx] at h
      by_cases hxc : x = c
      · rw [if_pos hxc] at h
        obtain rfl : 0 = j := by simpa using h
        have hmem : c ∉ xs := goLastIndex_eq_none.mp hx
        have hmemr : c ∉ xs.reverse := by simpa using hmem
        subst hxc
        simp only [List.take_zero, List.reverse_cons]
        rw [dropWhile_append_of_all [x] hmemr]
        simp [List.dropWhile_cons]
      · rw [if_neg hxc] at h; exact Option.noConfusion h
    · rw [hx] at h
      obtain rfl : j' + 1 = j := by simpa using h
      have hmem : c ∈ xs := by
        by_contra hm
        rw [goLastIndex_eq_none.mpr hm] at hx; exact Option.noConfusion hx
      have hmemr : c ∈ xs.reverse := by simpa using hmem
      obtain ⟨t, ht⟩ := dropWhile_head_of_mem hmemr
      have ihx := ih hx
      rw [ht] at ihx
      simp only [List.drop_succ_cons, List.drop_zero] at ihx
      simp only [List.reverse_cons, List.take_succ_cons]
      rw [dropWhile_append_of_mem [x] hmemr, ht]
      simp [ihx]

/-- C3: for every set of request headers and every peer address, `getOriginIP`
resolves the origin with the specified precedence — a present, non-empty
`X-Forwarded-For` yields its first comma-separated token trimmed of
whitespace (no IP validation); otherwise a present, non-empty `X-Real-IP` is
returned verbatim; otherwise the peer address is returned with everything
from its last colon onward stripped.  In particular `X-Forwarded-For:
1.2.3.4, 5.6.7.8` yields `1.2.3.4` for any peer address, and no proxy
headers with peer `9.9.9.9:555` yields `9.9.9.9`. -/
theorem getOriginIP_precedence :
    (∀ (hs : Headers) (peer : GoStr), getOriginIP hs peer = originResolveSpec hs peer)
    ∧ (∀ peer : GoStr,
        getOriginIP [(gs ("X-Forwarded-For"), gs ("1.2.3.4, 5.6.7.8"))] peer = gs ("1.2.3.4"))
    ∧ getOriginIP [] (gs ("9.9.9.9:555")) = gs ("9.9.9.9") := by
  refine ⟨?_, fun peer => rfl, by decide⟩
  intro hs peer
  unfold getOriginIP originResolveSpec
  by_cases hxff : headerGet hs (gs ("X-Forwarded-For")) = []
  · simp only [hxff, ne_eq, not_true_eq_false, if_false]
    by_cases hxri : headerGet hs (gs ("X-Real-IP")) = []
    · simp only [hxri, ne_eq, not_true_eq_false, if_false]
      rcases h : goLastIndex ':' peer with _ | j
      · have : ':' ∉ peer := goLastIndex_eq_none.mp h
        rw [if_neg this]
      · have hmem : ':' ∈ peer := by
          by_contra hm
          rw [goLastIndex_eq_none.mpr hm] at h; exact Option.noConfusion h
        rw [if_pos hmem]
        show peer.take j = _
        exact take_goLastIndex h
    · simp only [hxri, ne_eq, not_false_eq_true, if_true]
  · simp only [hxff, ne_eq, not_false_eq_true, if_true, splitChar_headD]

/-- C8: a request to an auth endpoint whose path has too few segments after
the fixed prefix (fewer than two for `/basic-auth/`, fewer than three for
`/digest-auth/`) always yields a 400 JSON error with no `WWW-Authenticate`
header, regardless of the Authorization header (and, for Digest, of the
generated nonce and opaque values). -/
theorem authHandlers_routing_error :
    (∀ (rest auth : GoStr), '/' ∉ rest →
      BasicAuthHandler (gs ("/basic-auth/") ++ rest) auth =
        writeJSONError 400
          (gs ("Invalid path format. Use /basic-auth/\x7buser\x7d/\x7bpasswd\x7d")))
    ∧ (∀ (rest auth nonceV opaqueV : GoStr), '/' ∉ rest →
      DigestAuthHandler (gs ("/digest-auth/") ++ rest) auth nonceV opaqueV =
        writeJSONError 400
          (gs ("Invalid path format. Use /digest-auth/\x7bqop\x7d/\x7buser\x7d/\x7bpasswd\x7d")))
    ∧ (∀ (a b auth nonceV opaqueV : GoStr), '/' ∉ a → '/' ∉ b →
      DigestAuthHandler (gs ("/digest-auth/") ++ (a ++ '/' :: b)) auth nonceV opaqueV =
        writeJSONError 400
          (gs ("Invalid path format. Use /digest-auth/\x7bqop\x7d/\x7buser\x7d/\x7bpasswd\x7d"))) := by
  refine ⟨?_, ?_, ?_⟩
  · intro rest auth h
    unfold BasicAuthHandler
    rw [goTrimPrefixL_append, splitChar_no_sep h]
  · intro rest auth nonceV opaqueV h
    unfold DigestAuthHandler
    rw [goTrimPrefixL_append, splitChar_no_sep h]
  · intro a b auth nonceV opaqueV ha hb
    unfold DigestAuthHandler
    rw [goTrimPrefixL_append, splitChar_append b ha, splitChar_no_sep hb]

/-- Witness for C8 at concrete inputs: `/basic-auth/user` (one segment) and
`/digest-auth/auth/user` (two segments) are routing errors even with an
Authorization header present. -/
theorem authHandlers_routing_error_witness :
    BasicAuthHandler (gs ("/basic-auth/") ++ gs ("user")) (gs ("Basic Zm9vOmJhcg==")) =
      writeJSONError 400
        (gs ("Invalid path format. Use /basic-auth/\x7buser\x7d/\x7bpasswd\x7d")) ∧
    DigestAuthHandler (gs ("/digest-auth/") ++ (gs ("auth") ++ '/' :: gs ("user")))
        (gs ("Digest username=\"user\"")) (gs ("n0")) (gs ("o0")) =
      writeJSONError 400
        (gs ("Invalid path format. Use /digest-auth/\x7bqop\x7d/\x7buser\x7d/\x7bpasswd\x7d")) :=
  ⟨authHandlers_routing_error.1 (gs ("user")) (gs ("Basic Zm9vOmJhcg==")) (by decide),
   authHandlers_routing_error.2.2 (gs ("auth")) (gs ("user"))
     (gs ("Digest username=\"user\"")) (gs ("n0")) (gs ("o0")) (by decide) (by decide)⟩

/-- C10: surplus path segments beyond the expected count are ignored by the
auth handlers: with slash-free expected segments, appending `/extra` (for any
`extra`, itself possibly containing further slashes) leaves the handler's
response unchanged. -/
theorem authHandlers_extra_segments :
    (∀ (u p extra auth : GoStr), '/' ∉ u → '/' ∉ p →
      BasicAuthHandler (gs ("/basic-auth/") ++ (u ++ '/' :: (p ++ '/' :: extra))) auth =
      BasicAuthHandler (gs ("/basic-auth/") ++ (u ++ '/' :: p)) auth)
    ∧ (∀ (q u p extra auth nonceV opaqueV : GoStr), '/' ∉ q → '/' ∉ u → '/' ∉ p →
      DigestAuthHandler
          (gs ("/digest-auth/") ++ (q ++ '/' :: (u ++ '/' :: (p ++ '/' :: extra))))
          auth nonceV opaqueV =
      DigestAuthHandler (gs ("/digest-auth/") ++ (q ++ '/' :: (u ++ '/' :: p)))
          auth nonceV opaqueV) := by
  constructor
  · intro u p extra auth hu hp
    unfold BasicAuthHandler
    rw [goTrimPrefixL_append, goTrimPrefixL_append,
      splitChar_append (p ++ '/' :: extra) hu, splitChar_append extra hp,
      splitChar_append p hu, splitChar_no_sep hp]
  · intro q u p extra auth nonceV opaqueV hq hu hp
    unfold DigestAuthHandler
    rw [goTrimPrefixL_append, goTrimPrefixL_append,
      splitChar_append (u ++ '/' :: (p ++ '/' :: extra)) hq,
      splitChar_append (p ++ '/' :: extra) hu, splitChar_append extra hp,
      splitChar_append (u ++ '/' :: p) hq, splitChar_append p hu, splitChar_no_sep hp]

/-- Witness for C10 at concrete inputs: `/basic-auth/user/passwd/junk` and
`/digest-auth/auth/user/passwd/junk` behave as without `junk`. -/
theorem authHandlers_extra_segments_witness :
    BasicAuthHandler (gs ("/basic-auth/") ++ (gs ("user") ++ '/' :: (gs ("passwd") ++ '/' :: gs ("junk"))))
        (gs ("Basic dXNlcjpwYXNzd2Q=")) =
      BasicAuthHandler (gs ("/basic-auth/") ++ (gs ("user") ++ '/' :: gs ("passwd")))
        (gs ("Basic dXNlcjpwYXNzd2Q=")) ∧
    DigestAuthHandler
        (gs ("/digest-auth/") ++ (gs ("auth") ++ '/' :: (gs ("user") ++ '/' :: (gs ("passwd") ++ '/' :: gs ("junk")))))
        (gs ("Digest username=\"user\"")) (gs ("n0")) (gs ("o0")) =
      DigestAuthHandler
        (gs ("/digest-auth/") ++ (gs ("auth") ++ '/' :: (gs ("user") ++ '/' :: gs ("passwd"))))
        (gs ("Digest username=\"user\"")) (gs ("n0")) (gs ("o0")) :=
  ⟨authHandlers_extra_segments.1 (gs ("user")) (gs ("passwd")) (gs ("junk"))
      (gs ("Basic dXNlcjpwYXNzd2Q=")) (by decide) (by decide),
   authHandlers_extra_segments.2 (gs ("auth")) (gs ("user")) (gs ("passwd")) (gs ("junk"))
      (gs ("Digest username=\"user\"")) (gs ("n0")) (gs ("o0"))
      (by decide) (by decide) (by decide)⟩

/-- C4: with at least two path segments after `/basic-auth/`, the handler
returns 200 with body `{"authenticated":true,"user":"<user>"}` exactly when
the Authorization header has the `Basic ` scheme, its remainder
base64-decodes, and the decoded payload splits at its first colon into
exactly the expected user and password; in every other case (missing header,
wrong scheme, decode failure, no colon, mismatched credentials) it returns
401 with `WWW-Authenticate: Basic realm="Restricted"`. -/
theorem basicAuth_success_iff (path auth eu ep : GoStr) (rest : List GoStr)
    (h : splitChar '/' (goTrimPrefixL path (gs ("/basic-auth/"))) = eu :: ep :: rest) :
    (BasicAuthHandler path auth =
        writeJSONResponse 200 (.basicSuccess (utf8Bytes eu)) ↔ basicOkSpec eu ep auth)
    ∧ (¬ basicOkSpec eu ep auth →
        (BasicAuthHandler path auth).status = 401 ∧
        (BasicAuthHandler path auth).wwwAuthenticate = some basicChallengeHdr) := by
  have hred : BasicAuthHandler path auth = basicAuthCheck eu ep auth := by
    unfold BasicAuthHandler; rw [h]
  rw [hred]
  unfold basicAuthCheck
  by_cases h0 : auth = []
  · subst h0
    rw [if_pos rfl]
    refine ⟨⟨fun heq => absurd heq (by simp [basicChallenge, writeJSONError, writeJSONResponse]),
      fun hP => absurd hP.1 (by decide)⟩, fun _ => ⟨rfl, rfl⟩⟩
  · rw [if_neg h0]
    by_cases h1 : (gs ("Basic ")).isPrefixOf auth
    · simp only [h1, Bool.not_true, Bool.false_eq_true, if_false]
      rcases hdec : base64Decode (auth.drop 6) with _ | payload
      · refine ⟨⟨fun heq => absurd heq (by simp [basicChallenge, writeJSONError, writeJSONResponse]),
          ?_⟩, fun _ => ⟨rfl, rfl⟩⟩
        rintro ⟨-, pl, hdec', -⟩
        rw [hdec] at hdec'; exact Option.noConfusion hdec'
      · simp only []
        rcases hs : splitN2 58 payload with _ | ⟨u, _ | ⟨p, _ | ⟨x, t⟩⟩⟩
        · refine ⟨⟨fun heq => absurd heq (by simp [basicChallenge, writeJSONError, writeJSONResponse]),
            ?_⟩, fun _ => ⟨rfl, rfl⟩⟩
          rintro ⟨-, payload', hdec', hs'⟩
          rw [hdec] at hdec'
          obtain rfl : payload = payload' := Option.some.inj hdec'
          rw [hs] at hs'; exact List.noConfusion hs'
        · refine ⟨⟨fun heq => absurd heq (by simp [basicChallenge, writeJSONError, writeJSONResponse]),
            ?_⟩, fun _ => ⟨rfl, rfl⟩⟩
          rintro ⟨-, payload', hdec', hs'⟩
          rw [hdec] at hdec'
          obtain rfl : payload = payload' := Option.some.inj hdec'
          rw [hs] at hs'
          exact List.noConfusion (List.cons.inj hs').2
        · simp only []
          by_cases hcred : u ≠ utf8Bytes eu ∨ p ≠ utf8Bytes ep
          · rw [if_pos hcred]
            refine ⟨⟨fun heq => absurd heq (by simp [basicChallenge, writeJSONError, writeJSONResponse]),
              ?_⟩, fun _ => ⟨rfl, rfl⟩⟩
            rintro ⟨-, payload', hdec', hs'⟩
            rw [hdec] at hdec'
            obtain rfl : payload = payload' := Option.some.inj hdec'
            rw [hs] at hs'
            obtain ⟨hu, htail⟩ := List.cons.inj hs'
            obtain ⟨hp2, -⟩ := List.cons.inj htail
            rcases hcred with hc | hc
            · exact absurd hu hc
            · exact absurd hp2 hc
          · rw [if_neg hcred]
            push_neg at hcred
            obtain ⟨hu, hp2⟩ := hcred
            refine ⟨⟨fun _ => ⟨h1, payload, hdec, by rw [hs, hu, hp2]⟩, fun _ => by rw [hu]⟩, ?_⟩
            intro hnP
            exact absurd ⟨h1, payload, hdec, by rw [hs, hu, hp2]⟩ hnP
        · refine ⟨⟨fun heq => absurd heq (by simp [basicChallenge, writeJSONError, writeJSONResponse]),
            ?_⟩, fun _ => ⟨rfl, rfl⟩⟩
          rintro ⟨-, payload', hdec', hs'⟩
          rw [hdec] at hdec'
          obtain rfl : payload = payload' := Option.some.inj hdec'
          rw [hs] at hs'
          obtain ⟨-, htail⟩ := List.cons.inj hs'
          obtain ⟨-, htail2⟩ := List.cons.inj htail
          exact List.noConfusion htail2
    · simp only [h1, Bool.not_false, if_true]
      refine ⟨⟨fun heq => absurd heq (by simp [basicChallenge, writeJSONError, writeJSONResponse]),
        ?_⟩, fun _ => ⟨rfl, rfl⟩⟩
      rintro ⟨hpre, -⟩
      exact absurd hpre (by simp [h1])

/-- Witness for C4 at a concrete input: `/basic-auth/user/passwd` with header
`Basic dXNlcjpwYXNzd2Q=` (base64 of `user:passwd`). -/
theorem basicAuth_success_iff_witness :
    (BasicAuthHandler (gs ("/basic-auth/user/passwd")) (gs ("Basic dXNlcjpwYXNzd2Q=")) =
        writeJSONResponse 200 (.basicSuccess (utf8Bytes (gs ("user")))) ↔
      basicOkSpec (gs ("user")) (gs ("passwd")) (gs ("Basic dXNlcjpwYXNzd2Q="))) ∧
    (¬ basicOkSpec (gs ("user")) (gs ("passwd")) (gs ("Basic dXNlcjpwYXNzd2Q=")) →
      (BasicAuthHandler (gs ("/basic-auth/user/passwd")) (gs ("Basic dXNlcjpwYXNzd2Q="))).status = 401 ∧
      (BasicAuthHandler (gs ("/basic-auth/user/passwd")) (gs ("Basic dXNlcjpwYXNzd2Q="))).wwwAuthenticate =
        some basicChallengeHdr) :=
  basicAuth_success_iff (gs ("/basic-auth/user/passwd")) (gs ("Basic dXNlcjpwYXNzd2Q="))
    (gs ("user")) (gs ("passwd")) [] (by decide)

/-- C5: with at least three path segments after `/digest-auth/`, the handler
returns 200 with an authenticated body exactly when the Authorization header
has the `Digest ` scheme and the parsed `username` directive equals the
path's expected user — the path password and the response hash are never
consulted.  On missing header, wrong scheme, or username mismatch it returns
401 with a Digest challenge carrying `realm="Restricted"`, the path's qop,
and the freshly generated nonce and opaque values. -/
theorem digestAuth_success_iff (path auth qop eu ep nonceV opaqueV : GoStr) (rest : List GoStr)
    (h : splitChar '/' (goTrimPrefixL path (gs ("/digest-auth/"))) = qop :: eu :: ep :: rest) :
    (DigestAuthHandler path auth nonceV opaqueV =
        writeJSONResponse 200 (.digestSuccess eu) ↔ digestOkSpec eu auth)
    ∧ (¬ digestOkSpec eu auth →
        (DigestAuthHandler path auth nonceV opaqueV).status = 401 ∧
        (DigestAuthHandler path auth nonceV opaqueV).wwwAuthenticate =
          some (digestChallengeHdr qop nonceV opaqueV)) := by
  have hred : DigestAuthHandler path auth nonceV opaqueV =
      digestAuthCheck qop eu auth nonceV opaqueV := by
    unfold DigestAuthHandler; rw [h]
  rw [hred]
  unfold digestAuthCheck
  by_cases h0 : auth = []
  · subst h0
    rw [if_pos rfl]
    refine ⟨⟨fun heq => absurd heq (by simp [digestChallenge, writeJSONError, writeJSONResponse]),
      fun hP => absurd hP.1 (by decide)⟩, fun _ => ⟨rfl, rfl⟩⟩
  · rw [if_neg h0]
    by_cases h1 : (gs ("Digest ")).isPrefixOf auth
    · simp only [h1, Bool.not_true, Bool.false_eq_true, if_false]
      rcases hm : mapGet (parseDigestAuth (auth.drop 7)) (gs ("username")) with _ | username
      · refine ⟨⟨fun heq => absurd heq (by simp [digestChallenge, writeJSONError, writeJSONResponse]),
          ?_⟩, fun _ => ⟨rfl, rfl⟩⟩
        rintro ⟨-, hm'⟩
        rw [hm] at hm'; exact Option.noConfusion hm'
      · simp only []
        by_cases hueq : username ≠ eu
        · rw [if_pos hueq]
          refine ⟨⟨fun heq => absurd heq (by simp [digestChallenge, writeJSONError, writeJSONResponse]),
            ?_⟩, fun _ => ⟨rfl, rfl⟩⟩
          rintro ⟨-, hm'⟩
          rw [hm] at hm'
          exact absurd (Option.some.inj hm') hueq
        · rw [if_neg hueq]
          push_neg at hueq
          refine ⟨⟨fun _ => ⟨h1, by rw [hm, hueq]⟩, fun _ => by rw [hueq]⟩, ?_⟩
          intro hnP
          exact absurd ⟨h1, by rw [hm, hueq]⟩ hnP
    · simp only [h1, Bool.not_false, if_true]
      refine ⟨⟨fun heq => absurd heq (by simp [digestChallenge, writeJSONError, writeJSONResponse]),
        ?_⟩, fun _ => ⟨rfl, rfl⟩⟩
      rintro ⟨hpre, -⟩
      exact absurd hpre (by simp [h1])

/-- Witness for C5 at a concrete input: `/digest-auth/auth/user/passwd` with
a well-formed Digest header whose username matches; the response hash
directive is arbitrary. -/
theorem digestAuth_success_iff_witness :
    (DigestAuthHandler (gs ("/digest-auth/auth/user/passwd"))
        (gs ("Digest username=\"user\", realm=\"Restricted\", nonce=\"abc123\", response=\"ffff\""))
        (gs ("n0")) (gs ("o0")) =
        writeJSONResponse 200 (.digestSuccess (gs ("user"))) ↔
      digestOkSpec (gs ("user"))
        (gs ("Digest username=\"user\", realm=\"Restricted\", nonce=\"abc123\", response=\"ffff\""))) ∧
    (¬ digestOkSpec (gs ("user"))
        (gs ("Digest username=\"user\", realm=\"Restricted\", nonce=\"abc123\", response=\"ffff\"")) →
      (DigestAuthHandler (gs ("/digest-auth/auth/user/passwd"))
        (gs ("Digest username=\"user\", realm=\"Restricted\", nonce=\"abc123\", response=\"ffff\""))
        (gs ("n0")) (gs ("o0"))).status = 401 ∧
      (DigestAuthHandler (gs ("/digest-auth/auth/user/passwd"))
        (gs ("Digest username=\"user\", realm=\"Restricted\", nonce=\"abc123\", response=\"ffff\""))
        (gs ("n0")) (gs ("o0"))).wwwAuthenticate =
        some (digestChallengeHdr (gs ("auth")) (gs ("n0")) (gs ("o0")))) :=
  digestAuth_success_iff (gs ("/digest-auth/auth/user/passwd"))
    (gs ("Digest username=\"user\", realm=\"Restricted\", nonce=\"abc123\", response=\"ffff\""))
    (gs ("auth")) (gs ("user")) (gs ("passwd")) (gs ("n0")) (gs ("o0")) [] (by decide)

theorem sumWeights_nonneg : ∀ {ws : List StatusWeight},
    (∀ w ∈ ws, 0 ≤ w.weight) → 0 ≤ sumWeights ws := by
  intro ws
  induction ws with
  | nil => intro _; simp [sumWeights]
  | cons w rest ih =>
    intro h
    have h1 := h w (List.mem_cons_self w rest)
    have h2 := ih (fun x hx => h x (List.mem_cons_of_mem w hx))
    simp only [sumWeights, List.map_cons, List.sum_cons] at *
    linarith

theorem sumWeights_pos : ∀ {ws : List StatusWeight},
    (∀ w ∈ ws, 0 ≤ w.weight) → (∃ w ∈ ws, 0 < w.weight) → 0 < sumWeights ws := by
  intro ws
  induction ws with
  | nil =>
    rintro _ ⟨w, hw, -⟩
    exact absurd hw (List.not_mem_nil w)
  | cons w rest ih =>
    rintro h ⟨x, hx, hxpos⟩
    have h1 := h w (List.mem_cons_self w rest)
    have hr : 0 ≤ sumWeights rest :=
      sumWeights_nonneg (fun y hy => h y (List.mem_cons_of_mem w hy))
    simp only [sumWeights, List.map_cons, List.sum_cons]
    simp only [sumWeights] at hr
    rcases List.mem_cons.mp hx with rfl | hx'
    · linarith
    · have hp := ih (fun y hy => h y (List.mem_cons_of_mem w hy)) ⟨x, hx', hxpos⟩
      simp only [sumWeights] at hp
      linarith

theorem selectLoop_pos (r : ℚ) :
    ∀ (ws : List StatusWeight) (cum : ℚ) (fb : StatusWeight),
      (∀ w ∈ ws, 0 ≤ w.weight) → cum < r → r ≤ cum + sumWeights ws →
      0 < (selectLoop r cum ws fb).weight := by
  intro ws
  induction ws with
  | nil =>
    intro cum fb _ hlt hle
    exfalso
    simp only [sumWeights, List.map_nil, List.sum_nil, add_zero] at hle
    linarith
  | cons w rest ih =>
    intro cum fb hnn hlt hle
    simp only [selectLoop]
    by_cases hif : r ≤ cum + w.weight
    · rw [if_pos hif]
      have := hnn w (List.mem_cons_self w rest)
      linarith
    · rw [if_neg hif]
      push_neg at hif
      refine ih (cum + w.weight) fb (fun y hy => hnn y (List.mem_cons_of_mem w hy)) hif ?_
      simp only [sumWeights, List.map_cons, List.sum_cons] at hle ⊢
      linarith

section

attribute [local semireducible] Rat.add Rat.mul Rat.sub Rat.inv Rat.ofScientific

/-- Counterexample to C1 as stated: the spec `500:0,200:1` is a multi-entry
specification with a strictly positive weight present and total weight 1,
yet at draw 0 (a possible value of the uniform draw in `[0, totalWeight)`)
`selectStatusCode` returns 500 — the code of the zero-weight first entry —
because the loop's comparison `r <= cumulative` already succeeds at
cumulative weight 0. -/
theorem selectStatusCode_zero_weight_counterexample :
    ((⟨500, 0⟩ : StatusWeight).weight = 0 ∧ 0 < (⟨200, 1⟩ : StatusWeight).weight ∧
      2 ≤ ([⟨500, 0⟩, ⟨200, 1⟩] : List StatusWeight).length ∧
      sumWeights [⟨500, 0⟩, ⟨200, 1⟩] = 1 ∧ (0 : ℚ) ≤ 0 ∧ (0 : ℚ) < 1) ∧
    selectStatusCode [⟨500, 0⟩, ⟨200, 1⟩] 0 = 500 := by decide

/-- C1 (amended): in a multi-entry specification with nonnegative weights
and at least one strictly positive weight, every strictly positive draw
selects an entry of strictly positive weight — a zero-weight entry can be
chosen only when the draw is exactly 0 and the zero-weight entry is first;
the selected code is always the selected entry's code; and the weighted spec
`200:1,500:0` parses as expected and resolves to 200 for every draw in
`[0, totalWeight)`. -/
theorem selectStatusCode_zero_weight_amended :
    (∀ (ws : List StatusWeight) (u : ℚ), 2 ≤ ws.length →
        (∀ w ∈ ws, 0 ≤ w.weight) → (∃ w ∈ ws, 0 < w.weight) →
        0 < u → u < 1 → 0 < (selectEntry ws u).weight)
    ∧ (∀ (ws : List StatusWeight) (u : ℚ), ws ≠ [] →
        selectStatusCode ws u = (selectEntry ws u).code)
    ∧ parseStatusCodes (gs ("/status/200:1,500:0")) = some [⟨200, 1⟩, ⟨500, 0⟩]
    ∧ (∀ u : ℚ, 0 ≤ u → u < 1 → selectStatusCode [⟨200, 1⟩, ⟨500, 0⟩] u = 200) := by
  refine ⟨?_, ?_, by decide, ?_⟩
  · intro ws u hlen hnn hpos hu0 hu1
    rcases ws with _ | ⟨a, _ | ⟨b, t⟩⟩
    · simp at hlen
    · simp at hlen
    · have htot : 0 < sumWeights (a :: b :: t) := sumWeights_pos hnn hpos
      have hr0 : 0 < u * sumWeights (a :: b :: t) := mul_pos hu0 htot
      have hr1 : u * sumWeights (a :: b :: t) ≤ 0 + sumWeights (a :: b :: t) := by
        have := mul_lt_of_lt_one_left htot hu1
        linarith
      exact selectLoop_pos _ (a :: b :: t) 0 ((b :: t).getLastD a) hnn hr0 hr1
  · intro ws u hne
    rcases ws with _ | ⟨a, t⟩
    · exact absurd rfl hne
    · rfl
  · intro u h0 h1
    show (selectLoop (u * sumWeights [(⟨200, 1⟩ : StatusWeight), ⟨500, 0⟩]) 0
        [⟨200, 1⟩, ⟨500, 0⟩] (([⟨500, 0⟩] : List StatusWeight).getLastD ⟨200, 1⟩)).code = 200
    have hs : sumWeights [(⟨200, 1⟩ : StatusWeight), ⟨500, 0⟩] = 1 := by decide
    rw [hs, mul_one]
    unfold selectLoop
    rw [if_pos (show u ≤ 0 + (⟨200, 1⟩ : StatusWeight).weight by
      show u ≤ 0 + (1 : ℚ); linarith)]

/-- Witness for the amended C1 at concrete inputs: the spec `200:1,500:0`
with draw `1/2` selects a positive-weight entry, the code is the selected
entry's code, and the result is 200. -/
theorem selectStatusCode_zero_weight_amended_witness :
    0 < (selectEntry [⟨200, 1⟩, ⟨500, 0⟩] (1/2)).weight ∧
    selectStatusCode [⟨200, 1⟩, ⟨500, 0⟩] (1/2) =
      (selectEntry [⟨200, 1⟩, ⟨500, 0⟩] (1/2)).code ∧
    selectStatusCode [⟨200, 1⟩, ⟨500, 0⟩] (1/2) = 200 :=
  ⟨selectStatusCode_zero_weight_amended.1 [⟨200, 1⟩, ⟨500, 0⟩] (1/2) (by decide) (by decide)
      ⟨⟨200, 1⟩, List.mem_cons_self _ _, by decide⟩ (by decide) (by decide),
   selectStatusCode_zero_weight_amended.2.1 [⟨200, 1⟩, ⟨500, 0⟩] (1/2) (by decide),
   selectStatusCode_zero_weight_amended.2.2.2 (1/2) (by decide) (by decide)⟩

end

set_option maxRecDepth 10000

theorem numRepr_ok : ∀ c ∈ List.range' 100 500,
    goAtoi (gs (toString c)) = some (c : Int) ∧
    goContainsSub (gs (toString c)) (gs (":")) = false := by decide

section

attribute [local semireducible] Rat.add Rat.mul Rat.sub Rat.inv Rat.ofScientific

/-- C6: for every integer `c` in `[100, 599]`, a request to `/status/{c}`
answers with status exactly `c`, no content-type and no body; the singleton
weighted spec `404:7` likewise answers 404 for every draw; and on any
single-entry specification the selection is deterministic, the entry's
weight being ignored. -/
theorem statusHandler_single_code :
    (∀ c : Nat, 100 ≤ c → c ≤ 599 → ∀ u : ℚ,
        StatusHandler (gs ("/status/") ++ gs (toString c)) u = { status := (c : Int) })
    ∧ (∀ u : ℚ, StatusHandler (gs ("/status/404:7")) u = { status := 404 })
    ∧ (∀ (w : StatusWeight) (u u' : ℚ),
        selectStatusCode [w] u = w.code ∧ selectStatusCode [w] u = selectStatusCode [w] u') := by
  refine ⟨?_, ?_, fun w u u' => ⟨rfl, rfl⟩⟩
  · intro c hc1 hc2 u
    have hok := numRepr_ok c (by rw [List.mem_range'_1]; omega)
    have hne : gs (toString c) ≠ [] := by
      intro he
      rw [he] at hok
      exact Option.noConfusion hok.1
    have hparse : parseStatusCodes (gs ("/status/") ++ gs (toString c)) =
        some [⟨(c : Int), 1⟩] := by
      unfold parseStatusCodes
      rw [goTrimPrefixL_append, if_neg hne, hok.2, if_pos rfl, hok.1]
    unfold StatusHandler
    rw [hparse]
    have hrange : ¬((c : Int) < 100 ∨ 599 < (c : Int)) := by
      push_neg
      constructor <;> [exact_mod_cast hc1; exact_mod_cast hc2]
    simp only [if_neg (by simp : ¬([(⟨(c : Int), 1⟩ : StatusWeight)] = []))]
    show (if selectStatusCode [⟨(c : Int), 1⟩] u < 100 ∨ 599 < selectStatusCode [⟨(c : Int), 1⟩] u
        then writeJSONError 400 (gs ("Status code must be between 100 and 599"))
        else { status := selectStatusCode [⟨(c : Int), 1⟩] u }) = { status := (c : Int) }
    rw [show selectStatusCode [(⟨(c : Int), 1⟩ : StatusWeight)] u = (c : Int) from rfl,
      if_neg hrange]
  · intro u
    have hparse : parseStatusCodes (gs ("/status/404:7")) = some [⟨404, 7⟩] := by decide
    unfold StatusHandler
    rw [hparse]
    simp only [if_neg (by simp : ¬([(⟨404, 7⟩ : StatusWeight)] = []))]
    show (if selectStatusCode [⟨404, 7⟩] u < 100 ∨ 599 < selectStatusCode [⟨404, 7⟩] u
        then writeJSONError 400 (gs ("Status code must be between 100 and 599"))
        else { status := selectStatusCode [⟨404, 7⟩] u }) = { status := 404 }
    rw [show selectStatusCode [(⟨404, 7⟩ : StatusWeight)] u = 404 from rfl]
    norm_num

/-- Witness for C6 at concrete inputs: `/status/204` answers 204 bare. -/
theorem statusHandler_single_code_witness :
    StatusHandler (gs ("/status/") ++ gs (toString 204)) (1/3) = { status := (204 : Int) } :=
  statusHandler_single_code.1 204 (by decide) (by decide) (1/3)

end

/-- C7: `StatusHandler` answers 400 with a JSON error body exactly when the
status specification is invalid — an empty spec, a colon-free spec failing
integer parsing, a weighted spec with every segment skipped, or a selected
code outside `[100, 599]` (checked after selection, independent of parse
success). -/
theorem statusHandler_badRequest_iff (path : GoStr) (u : ℚ) :
    ((StatusHandler path u).status = 400 ∧
      ∃ msg, (StatusHandler path u).body = RespBody.errorMsg msg) ↔
    statusSpecInvalid path u := by
  unfold StatusHandler statusSpecInvalid parseStatusCodes
  by_cases h1 : goTrimPrefixL path (gs ("/status/")) = []
  · rw [if_pos h1]
    simp only []
    refine iff_of_true ⟨rfl, _, rfl⟩ (Or.inl h1)
  · rw [if_neg h1]
    by_cases h2 : goContainsSub (goTrimPrefixL path (gs ("/status/"))) (gs (":")) = false
    · rw [if_pos h2]
      rcases h3 : goAtoi (goTrimPrefixL path (gs ("/status/"))) with _ | code
      · simp only []
        refine iff_of_true ⟨rfl, _, rfl⟩ (Or.inr (Or.inl ⟨h2, h3⟩))
      · simp only []
        rw [if_neg (by simp : ¬([(⟨code, 1⟩ : StatusWeight)] = []))]
        by_cases h4 : selectStatusCode [⟨code, 1⟩] u < 100 ∨ 599 < selectStatusCode [⟨code, 1⟩] u
        · rw [if_pos h4]
          refine iff_of_true ⟨rfl, _, rfl⟩ (Or.inr (Or.inr (Or.inr
            ⟨[⟨code, 1⟩], rfl, by simp, by omega⟩)))
        · rw [if_neg h4]
          refine iff_of_false (by simp) ?_
          push_neg at h4
          rintro (he | ⟨-, ha⟩ | ⟨hc, -⟩ | ⟨ws, hws, -, hr⟩)
          · exact h1 he
          · rw [h3] at ha; exact Option.noConfusion ha
          · rw [h2] at hc; exact Bool.noConfusion hc
          · obtain rfl : [(⟨code, 1⟩ : StatusWeight)] = ws := Option.some.inj hws
            exact hr ⟨by omega, by omega⟩
    · rw [if_neg h2]
      by_cases h5 : (splitChar ',' (goTrimPrefixL path (gs ("/status/")))).filterMap parseSegment = []
      · rw [h5]
        simp only []
        refine iff_of_true ⟨rfl, _, rfl⟩ (Or.inr (Or.inr (Or.inl
          ⟨by revert h2; cases goContainsSub (goTrimPrefixL path (gs ("/status/"))) (gs (":")) <;> simp,
           h5⟩)))
      · simp only []
        rw [if_neg h5]
        set sel := selectStatusCode
          ((splitChar ',' (goTrimPrefixL path (gs ("/status/")))).filterMap parseSegment) u with hsel
        by_cases h6 : sel < 100 ∨ 599 < sel
        · rw [if_pos h6]
          refine iff_of_true ⟨rfl, _, rfl⟩ (Or.inr (Or.inr (Or.inr
            ⟨(splitChar ',' (goTrimPrefixL path (gs ("/status/")))).filterMap parseSegment,
              rfl, h5, by omega⟩)))
        · rw [if_neg h6]
          refine iff_of_false (by simp) ?_
          push_neg at h6
          rintro (he | ⟨hcf, -⟩ | ⟨-, hfm⟩ | ⟨ws, hws, -, hr⟩)
          · exact h1 he
          · exact h2 hcf
          · exact h5 hfm
          · obtain rfl : _ = ws := Option.some.inj hws
            exact hr ⟨by omega, by omega⟩

/-- C2 (divergence witness): on a request whose body read fails,
`extractRequestInfo` surfaces an error with no descriptor, but the body
stream is NOT closed — the source places `defer r.Body.Close()` after the
`if err != nil` early return, so the close is never registered on that path,
contradicting the claim that the stream is closed regardless of outcome. -/
theorem extractRequestInfo_read_failure_not_closed :
    extractRequestInfo failingBodyRequest = (none, false) := rfl

/-- C9: for every request whose body read succeeds with a Content-Type
containing `application/json`, the descriptor is constructed without error,
its `body` field is the raw string read, its `json` field is exactly the
decoded value when the body parses as JSON and is absent when it does not,
and the body stream is closed. -/
theorem extractRequestInfo_json_best_effort (r : GoRequest) (body : GoStr)
    (hread : r.bodyRead = some body)
    (hct : goContainsSub (headerGet r.headers (gs ("Content-Type")))
        (gs ("application/json")) = true) :
    ∃ info, (extractRequestInfo r).1 = some info ∧ (extractRequestInfo r).2 = true ∧
      info.body = body ∧ info.json = parseJson body := by
  unfold extractRequestInfo
  rw [hread]
  refine ⟨_, rfl, rfl, rfl, ?_⟩
  by_cases hb : body = []
  · subst hb
    simp only [ne_eq, not_true_eq_false, false_and, if_false]
    rfl
  · simp only [ne_eq, hb, not_false_eq_true, hct, and_self, if_true]

/-- Witness for C9 at a concrete input: a POST of `{"key":"value"}` with
`Content-Type: application/json`. -/
theorem extractRequestInfo_json_best_effort_witness :
    ∃ info, (extractRequestInfo jsonPostRequest).1 = some info ∧
      (extractRequestInfo jsonPostRequest).2 = true ∧
      info.body = gs ("\x7b\"key\":\"value\"\x7d") ∧
      info.json = parseJson (gs ("\x7b\"key\":\"value\"\x7d")) :=
  extractRequestInfo_json_best_effort jsonPostRequest (gs ("\x7b\"key\":\"value\"\x7d"))
    rfl (by decide)
